import Mathlib

/-!
Verification development for the mkv-subtitle-extractor repository.

The Rust source (src/src/lib.rs) is shallowly embedded here: strings are
modelled as `List Char` (`Str`), byte indices of `str` methods become
character indices (all parsing operates on positions returned by the
search primitives themselves, so the correspondence is exact), `u32`
arithmetic keeps its wrap-around (`% 2 ^ 32`), fallible code returns
`Except`, and the effectful extraction orchestrator is rendered as a pure
function over an explicit environment (filesystem existence bits, operator
decisions, external-command outcome) that yields the list of mutating
filesystem events it performs together with its outcome.
-/

abbrev Str := List Char

/-- Unicode White_Space property, as used by Rust `char::is_whitespace`,
`str::trim`, `str::trim_start` and the whitespace arm of the format
splitter. -/
def rustIsWhitespace (c : Char) : Bool :=
  c = '\t' || c = '\n' || c = '\u000B' || c = '\u000C' || c = '\r' ||
  c = ' ' || c = '\u0085' || c = '\u00A0' || c = '\u1680' ||
  ('\u2000' ≤ c && c ≤ '\u200A') ||
  c = '\u2028' || c = '\u2029' || c = '\u202F' || c = '\u205F' || c = '\u3000'

/-- Rust `str::trim_start`. -/
def dropWhileWs (s : Str) : Str := s.dropWhile rustIsWhitespace

/-- Rust `str::trim_end`. -/
def trimEnd (s : Str) : Str := (s.reverse.dropWhile rustIsWhitespace).reverse

/-- Rust `str::trim`. -/
def rustTrim (s : Str) : Str := trimEnd (dropWhileWs s)

/-- Rust `str::trim_end_matches` with a single-character pattern. -/
def trimEndMatches (s : Str) (x : Char) : Str :=
  (s.reverse.dropWhile (fun c => c = x)).reverse

/-- Rust `str::contains` with a literal pattern (substring search). -/
def containsSubstr (hay needle : Str) : Bool :=
  if List.isPrefixOf needle hay then true
  else
    match hay with
    | [] => false
    | _ :: t => containsSubstr t needle

/-- Rust `str::split_once` with a literal pattern: split around the first
occurrence of the needle. -/
def splitOnce (hay needle : Str) : Option (Str × Str) :=
  if List.isPrefixOf needle hay then some ([], hay.drop needle.length)
  else
    match hay with
    | [] => none
    | c :: t => (splitOnce t needle).map (fun p => (c :: p.1, p.2))

/-- Rust `str::find` with a single-character pattern. -/
def findCharIdx (s : Str) (x : Char) : Option Nat :=
  match s with
  | [] => none
  | c :: t => if c = x then some 0 else (findCharIdx t x).map (· + 1)

/-- Rust `str::rfind` with a single-character pattern. -/
def rfindCharIdx (s : Str) (x : Char) : Option Nat :=
  match s with
  | [] => none
  | c :: t =>
    match rfindCharIdx t x with
    | some i => some (i + 1)
    | none => if c = x then some 0 else none

/-- Value of a decimal digit string (most significant first). -/
def decimalVal (s : Str) : Nat :=
  s.foldl (fun a c => a * 10 + (c.toNat - 48)) 0

def intEmptyMsg : Str := "cannot parse integer from empty string".data

def intInvalidMsg : Str := "invalid digit found in string".data

def intOverflowMsg : Str := "number too large to fit in target type".data

/-- Rust `str::parse::<u32>()`: optional leading plus sign, one or more
ASCII digits, value below `2 ^ 32`; the error strings are the `Display`
renderings of the corresponding `ParseIntError` kinds. -/
def parseU32 (s : Str) : Except Str Nat :=
  match s with
  | [] => .error intEmptyMsg
  | c :: rest =>
    let digits := if c = '+' then rest else c :: rest
    if digits = [] then .error intInvalidMsg
    else if digits.all Char.isDigit then
      if decimalVal digits < 2 ^ 32 then .ok (decimalVal digits)
      else .error intOverflowMsg
    else .error intInvalidMsg

/-- Split a text into parts at every newline character. -/
def splitNl (s : Str) : List Str :=
  match s with
  | [] => [[]]
  | '\n' :: t => [] :: splitNl t
  | c :: t =>
    match splitNl t with
    | [] => [[c]]
    | h :: r => (c :: h) :: r

/-- Remove a single carriage return at the end of a line, as Rust
`str::lines` does for `\r\n` endings. -/
def stripCr (l : Str) : Str :=
  if l.getLast? = some '\r' then l.dropLast else l

/-- Rust `str::lines`: split at `\n` or `\r\n`; a trailing line ending
produces no final empty line; a final line without a newline keeps any
trailing carriage return. -/
def rustLines (s : Str) : List Str :=
  let parts := splitNl s
  let front := parts.dropLast.map stripCr
  match parts.getLast? with
  | some l => if l = [] then front else front ++ [l]
  | none => front

/-- The `SubtitleTrack` struct of the source. `stream_index` is a `u32`
modelled as a `Nat` (every value the code stores is reduced `% 2 ^ 32`
where the source truncates). -/
structure SubtitleTrack where
  stream_index : Nat
  lang : Option Str
  format : Str
  title : Option Str
deriving DecidableEq

def streamMarker : Str := "Stream #".data

def subtitleWord : Str := "Subtitle".data

def subtitleColonWord : Str := "Subtitle:".data

def titleKey : Str := "title".data

/-- Classification of a diagnostic line as a subtitle stream header:
`line.trim_start().starts_with("Stream #") && line.contains("Subtitle")`. -/
def isSubtitleHeader (line : Str) : Bool :=
  List.isPrefixOf streamMarker (dropWhileWs line) && containsSubstr line subtitleWord

/-- Delimiter predicate used to cut the format token:
`|c: char| c.is_whitespace() || c == ',' || c == '('`. -/
def formatDelim (c : Char) : Bool :=
  rustIsWhitespace c || c = ',' || c = '('

def noSubtitleMsg : Str := "No 'Subtitle:' in line: ".data

def unclosedParenMsg : Str := "Unclosed parenthesis in line: ".data

def noColonNumericMsg : Str := "No colon found in numeric_str: '".data

def noColonStreamMsg : Str := "No colon found in stream portion: '".data

/-- Header-line parsing, the body of the `if` branch of
`enumerate_subtitle_tracks` (lib.rs lines 165-231).  Returns the raw
stream index, the optional language tag and the format token, or the
error produced on a malformed header. -/
def parseHeader (line : Str) : Except Str (Nat × Option Str × Str) :=
  let line_trim := dropWhileWs line
  let after_stream := rustTrim (line_trim.drop streamMarker.length)
  match splitOnce after_stream subtitleColonWord with
  | none => .error (noSubtitleMsg ++ line)
  | some (left, right) =>
    let stream_part := rustTrim (trimEndMatches (rustTrim left) ':')
    let after_subtitle := rustTrim right
    let format_str := rustTrim (after_subtitle.takeWhile (fun c => !formatDelim c))
    match findCharIdx stream_part '(' with
    | some open_paren =>
      let inside := stream_part.drop (open_paren + 1)
      match findCharIdx inside ')' with
      | none => .error (unclosedParenMsg ++ line)
      | some close_paren =>
        let lang_str := inside.take close_paren
        let numeric_str := rustTrim (trimEndMatches (stream_part.take open_paren) ':')
        match rfindCharIdx numeric_str ':' with
        | none => .error ((noColonNumericMsg ++ numeric_str) ++ ("'").data)
        | some idx =>
          let int_str := numeric_str.drop (idx + 1)
          match parseU32 int_str with
          | .error e => .error e
          | .ok num => .ok (num, some lang_str, format_str)
    | none =>
      let trimmed := rustTrim (trimEndMatches stream_part ':')
      match rfindCharIdx trimmed ':' with
      | none => .error ((noColonStreamMsg ++ trimmed) ++ ("'").data)
      | some idx =>
        let int_str := trimmed.drop (idx + 1)
        match parseU32 int_str with
        | .error e => .error e
        | .ok num => .ok (num, none, format_str)

/-- Metadata handling for a non-header line while a track is in progress
(lib.rs lines 236-246): a line whose trimmed start begins with `title`
sets the title to the trimmed text after the first colon of the whole
untrimmed line, if that text is non-empty. -/
def applyMeta (cur : SubtitleTrack) (line : Str) : SubtitleTrack :=
  if List.isPrefixOf titleKey (dropWhileWs line) then
    match findCharIdx line ':' with
    | some colon_pos =>
      let after_colon := rustTrim (line.drop (colon_pos + 1))
      if after_colon ≠ [] then { cur with title := some after_colon } else cur
    | none => cur
  else cur

/-- The main loop of `enumerate_subtitle_tracks` (lib.rs lines 148-253):
the emitted list so far, plus the optional in-progress track. -/
def enumLoop (lines : List Str) (result : List SubtitleTrack)
    (current : Option SubtitleTrack) : Except Str (List SubtitleTrack) :=
  match lines with
  | [] => .ok (result ++ current.toList)
  | line :: rest =>
    if isSubtitleHeader line then
      match parseHeader line with
      | .error e => .error e
      | .ok (num, lang, fmt) =>
        enumLoop rest (result ++ current.toList)
          (some { stream_index := num, lang := lang, format := fmt, title := none })
    else
      match current with
      | some c => enumLoop rest result (some (applyMeta c line))
      | none => enumLoop rest result none

/-- The renumbering pass (lib.rs lines 256-258): overwrite each
`stream_index` with its position, truncated to `u32` as `i as u32` does. -/
def renumberFrom (i : Nat) (ts : List SubtitleTrack) : List SubtitleTrack :=
  match ts with
  | [] => []
  | t :: rest => { t with stream_index := i % 2 ^ 32 } :: renumberFrom (i + 1) rest

/-- The pure core of `enumerate_subtitle_tracks`, applied to the captured
diagnostic text (the probing command's stderr). -/
def enumerate_subtitle_tracks (stderrText : Str) : Except Str (List SubtitleTrack) :=
  match enumLoop (rustLines stderrText) [] none with
  | .error e => .error e
  | .ok ts => .ok (renumberFrom 0 ts)

/-- The fixed forbidden-character set of the sanitizer, and its per-char
replacement (lib.rs lines 397-409). -/
def sanitizeChar (c : Char) : Char :=
  if c ∈ ['/', '\\', ':', '*', '"', '<', '>', '|'] then '_' else c

def sanitize_to_windows_path_characters (segment : Str) : Str :=
  segment.map sanitizeChar

/-- Format to file-extension resolution (lib.rs lines 116-127). -/
def extension_for_format (fmt : Str) : Str :=
  if fmt = "subrip".data then "srt".data
  else if fmt = "ass".data then "ass".data
  else if fmt = "hdmv_pgs_subtitle".data || fmt = "pgssub".data then "sup".data
  else "sub".data

/-- Rust `Path::file_stem` (with `unwrap_or_default`) for a plain file
name: the part before the last dot, except that a lone leading dot is not
an extension separator. -/
def file_stem (name : Str) : Str :=
  match rfindCharIdx name '.' with
  | none => name
  | some 0 => name
  | some i => name.take i

/-- Decimal rendering of a `u32` as the `format!` macro prints it. -/
def natToChars (n : Nat) : Str := (toString n).data

/-- The output file name construction of `extract_subtitle_track`
(lib.rs lines 271-293). -/
def output_file_name (path : Str) (track : SubtitleTrack) : Str :=
  let ext := extension_for_format track.format
  let base_stem := file_stem path
  let fname := (base_stem ++ ('.' :: natToChars track.stream_index))
  let fname :=
    match track.lang with
    | some lang => fname ++ ('.' :: lang)
    | none => fname
  let fname :=
    match track.title with
    | some t =>
      let sanitized := sanitize_to_windows_path_characters t
      if sanitized ≠ [] then fname ++ ('.' :: sanitized) else fname
    | none => fname
  fname ++ ('.' :: ext)

/-- The container-format directive chosen for the extraction command
(lib.rs lines 362-367); the empty string means no `-f` argument. -/
def container_format_for (fmt : Str) : Str :=
  if fmt = "subrip".data then "srt".data
  else if fmt = "ass".data then "ass".data
  else if fmt = "hdmv_pgs_subtitle".data || fmt = "pgssub".data then "sup".data
  else []

/-- Mutating filesystem actions performed by the extraction orchestrator,
in order. Existence checks and operator prompts are reads and are not
events. -/
inductive FsEvent where
  | removeFile (p : Str)
  | runFfmpeg (input selector containerFmt out : Str)
  | renameFile (src dst : Str)
deriving DecidableEq

inductive ExtractOutcome where
  | produced (p : Str)
  | skipped
  | failed (msg : Str)
deriving DecidableEq

/-- Environment of one `extract_subtitle_track` call: what the
existence checks observe, what the operator answers when prompted, and
how the external command exits. -/
structure ExtractEnv where
  outExists : Bool
  tempExists : Bool
  overwriteFinal : Bool
  overwriteTemp : Bool
  cmdSuccess : Bool
  cmdStderr : Str
deriving DecidableEq

def tempExistsMsg : Str := "Temp file already exists: ".data

def extractFailMsg : Str := "Failed to extract subtitle track: ".data

/-- Shallow embedding of `extract_subtitle_track` (lib.rs lines 264-395):
paths are file names within the source directory; the returned list holds
the mutating filesystem events in program order. -/
def extract_subtitle_track (path : Str) (track : SubtitleTrack)
    (env : ExtractEnv) : List FsEvent × ExtractOutcome :=
  let ext := extension_for_format track.format
  let output_path := output_file_name path track
  if env.outExists && !env.overwriteFinal then ([], .skipped)
  else
    let temp_path := ("output.").data ++ ext
    if env.tempExists && !env.overwriteTemp then
      ([], .failed (tempExistsMsg ++ temp_path))
    else
      let ev1 : List FsEvent :=
        if env.tempExists then [.removeFile temp_path] else []
      let selector := ("0:s:").data ++ natToChars track.stream_index
      let ev2 := ev1 ++ [FsEvent.runFfmpeg path selector (container_format_for track.format) temp_path]
      if !env.cmdSuccess then (ev2, .failed (extractFailMsg ++ env.cmdStderr))
      else (ev2 ++ [FsEvent.renameFile temp_path output_path], .produced output_path)

/-- The creation-time fields of a track that the claims assert are never
mutated after the header is parsed. -/
def trackProj (t : SubtitleTrack) : Option Str × Str := (t.lang, t.format)

/-- The language/format pair a subtitle header line contributes, `none`
for non-header lines and unparsable headers. -/
def headerProj (l : Str) : Option (Option Str × Str) :=
  if isSubtitleHeader l then
    match parseHeader l with
    | .ok (_, lg, f) => some (lg, f)
    | .error _ => none
  else none

/-- Decidable well-formedness of a header line. -/
def parsedOk (l : Str) : Bool :=
  match parseHeader l with
  | .ok _ => true
  | .error _ => false

/-- The title value a metadata line contributes, if any: recognized title
key, a colon present, and a non-empty trimmed value after it. -/
def titleValue (line : Str) : Option Str :=
  if List.isPrefixOf titleKey (dropWhileWs line) then
    match findCharIdx line ':' with
    | some colon_pos =>
      let after_colon := rustTrim (line.drop (colon_pos + 1))
      if after_colon ≠ [] then some after_colon else none
    | none => none
  else none

/-- A subtitle header line with container index 0, raw stream index given
by the digit string `ds`, a parenthesized language tag, and arbitrary text
after the subtitle marker. -/
def withLangHeader (ds tag rest : Str) : Str :=
  ("Stream #0:").data ++ ds ++ '(' :: (tag ++ (("): Subtitle: ").data ++ rest))

/-- A subtitle header line with container index 0, raw stream index given
by the digit string `ds`, no language tag, and arbitrary text after the
subtitle marker. -/
def noLangHeader (ds rest : Str) : Str :=
  ("Stream #0:").data ++ ds ++ ((": Subtitle: ").data ++ rest)

/-! Helper lemmas about the sanitizer and the metadata step. -/

lemma sanitizeChar_idem (c : Char) : sanitizeChar (sanitizeChar c) = sanitizeChar c := by
  by_cases h : c ∈ ['/', '\\', ':', '*', '"', '<', '>', '|']
  · simp [sanitizeChar, h]
  · simp [sanitizeChar, h]

lemma applyMeta_of_not_title {c : SubtitleTrack} {l : Str}
    (h : List.isPrefixOf titleKey (dropWhileWs l) = false) : applyMeta c l = c := by
  simp [applyMeta, h]

lemma applyMeta_of_title_colon {c : SubtitleTrack} {l : Str} {i : Nat}
    (h1 : List.isPrefixOf titleKey (dropWhileWs l) = true)
    (h2 : findCharIdx l ':' = some i)
    (h3 : rustTrim (l.drop (i + 1)) ≠ []) :
    applyMeta c l = { c with title := some (rustTrim (l.drop (i + 1))) } := by
  simp [applyMeta, h1, h2, h3]

lemma applyMeta_of_title_colon_empty {c : SubtitleTrack} {l : Str} {i : Nat}
    (h1 : List.isPrefixOf titleKey (dropWhileWs l) = true)
    (h2 : findCharIdx l ':' = some i)
    (h3 : rustTrim (l.drop (i + 1)) = []) : applyMeta c l = c := by
  simp [applyMeta, h1, h2, h3]

lemma applyMeta_of_title_nocolon {c : SubtitleTrack} {l : Str}
    (h1 : List.isPrefixOf titleKey (dropWhileWs l) = true)
    (h2 : findCharIdx l ':' = none) : applyMeta c l = c := by
  simp [applyMeta, h1, h2]

/-- C8: the title sanitizer maps each character of the input to exactly one
output character (forbidden characters become an underscore, the others are
kept in place), so it preserves length and positions, and it is idempotent. -/
theorem c8_sanitize_pointwise_and_idempotent :
    (∀ s : Str, (sanitize_to_windows_path_characters s).length = s.length) ∧
    (∀ (s : Str) (i : Nat),
       (sanitize_to_windows_path_characters s)[i]? = (s[i]?).map sanitizeChar) ∧
    (∀ c : Char, c ∈ ['/', '\\', ':', '*', '"', '<', '>', '|'] → sanitizeChar c = '_') ∧
    (∀ c : Char, c ∉ ['/', '\\', ':', '*', '"', '<', '>', '|'] → sanitizeChar c = c) ∧
    (∀ s : Str,
       sanitize_to_windows_path_characters (sanitize_to_windows_path_characters s) =
         sanitize_to_windows_path_characters s) := by
  refine ⟨?_, ?_, ?_, ?_, ?_⟩
  · intro s; simp [sanitize_to_windows_path_characters]
  · intro s i; simp [sanitize_to_windows_path_characters]
  · intro c h; simp [sanitizeChar, h]
  · intro c h; simp [sanitizeChar, h]
  · intro s
    simp only [sanitize_to_windows_path_characters, List.map_map]
    exact List.map_congr_left (fun c _ => sanitizeChar_idem c)

/-- Witness for C8 at a concrete forbidden character. -/
theorem c8_sanitize_witness :
    (':' ∈ ['/', '\\', ':', '*', '"', '<', '>', '|']) ∧ sanitizeChar ':' = '_' :=
  ⟨by decide, c8_sanitize_pointwise_and_idempotent.2.2.1 ':' (by decide)⟩

/-- C9: `extension_for_format` is total and never returns an empty
extension; the four known tokens map to their fixed extensions and every
other token maps to the fallback `sub`. -/
theorem c9_extension_for_format_total :
    (∀ fmt : Str, extension_for_format fmt ≠ []) ∧
    extension_for_format (("subrip").data) = ("srt").data ∧
    extension_for_format (("ass").data) = ("ass").data ∧
    extension_for_format (("hdmv_pgs_subtitle").data) = ("sup").data ∧
    extension_for_format (("pgssub").data) = ("sup").data ∧
    (∀ fmt : Str,
       fmt ∉ [("subrip").data, ("ass").data, ("hdmv_pgs_subtitle").data, ("pgssub").data] →
       extension_for_format fmt = ("sub").data) := by
  refine ⟨?_, by decide, by decide, by decide, by decide, ?_⟩
  · intro fmt
    unfold extension_for_format
    split
    · decide
    · split
      · decide
      · split
        · decide
        · decide
  · intro fmt h
    simp only [List.mem_cons, List.not_mem_nil, or_false, not_or] at h
    obtain ⟨h1, h2, h3, h4⟩ := h
    simp [extension_for_format, h1, h2, h3, h4]

/-- Witness for C9 at a concrete unknown token. -/
theorem c9_extension_witness :
    (("mov_text").data ∉
      [("subrip").data, ("ass").data, ("hdmv_pgs_subtitle").data, ("pgssub").data]) ∧
    extension_for_format (("mov_text").data) = ("sub").data :=
  ⟨by decide, c9_extension_for_format_total.2.2.2.2.2 (("mov_text").data) (by decide)⟩

/-- C7: the final output filename is
`stem . index [. lang] [. sanitized-title] . extension`, the bracketed
components being dropped together with their leading dot when the language
is absent or the title is absent or sanitizes to the empty string; in
particular track 0 of `movie.mkv` with language `eng` and format `subrip`
is named `movie.0.eng.srt`. -/
theorem c7_output_file_name_shape :
    (∀ (path : Str) (track : SubtitleTrack),
       output_file_name path track =
         file_stem path ++ ('.' :: natToChars track.stream_index)
         ++ (match track.lang with
             | some l => '.' :: l
             | none => [])
         ++ (match track.title with
             | some t =>
               if sanitize_to_windows_path_characters t = [] then []
               else '.' :: sanitize_to_windows_path_characters t
             | none => [])
         ++ ('.' :: extension_for_format track.format)) ∧
    output_file_name (("movie.mkv").data)
        { stream_index := 0, lang := some (("eng").data), format := ("subrip").data,
          title := none } =
      ("movie.0.eng.srt").data := by
  constructor
  · intro path track
    obtain ⟨idx, lg, fmt, ttl⟩ := track
    cases lg <;> cases ttl <;>
      simp only [output_file_name] <;>
      (try split_ifs with h h2) <;>
      simp_all [List.append_assoc]
  · rfl

/-- C10: title-line recognition is prefix-based and case-sensitive: while a
track is in progress, any line whose leading-whitespace-trimmed text starts
with the lowercase literal `title` (longer keys such as `titleXYZ`
included) is a title line whose value is taken after the first colon of the
whole untrimmed line; keys differing in case are ignored. -/
theorem c10_title_recognition_prefix_case_sensitive :
    (∀ (c : SubtitleTrack) (l : Str),
       List.isPrefixOf titleKey (dropWhileWs l) = false → applyMeta c l = c) ∧
    (∀ (c : SubtitleTrack) (l : Str) (i : Nat),
       List.isPrefixOf titleKey (dropWhileWs l) = true →
       findCharIdx l ':' = some i →
       rustTrim (l.drop (i + 1)) ≠ [] →
       applyMeta c l = { c with title := some (rustTrim (l.drop (i + 1))) }) ∧
    (∀ (c : SubtitleTrack) (l : Str),
       List.isPrefixOf titleKey (dropWhileWs l) = true →
       findCharIdx l ':' = none → applyMeta c l = c) ∧
    (∀ c : SubtitleTrack,
       applyMeta c (("  titleXYZ : Foo").data) =
         { c with title := some (("Foo").data) }) ∧
    (∀ c : SubtitleTrack, applyMeta c (("  Title : Foo").data) = c) := by
  refine ⟨?_, ?_, ?_, ?_, ?_⟩
  · intro c l h; exact applyMeta_of_not_title h
  · intro c l i h1 h2 h3; exact applyMeta_of_title_colon h1 h2 h3
  · intro c l h1 h2; exact applyMeta_of_title_nocolon h1 h2
  · intro c
    exact (@applyMeta_of_title_colon c (("  titleXYZ : Foo").data) 11
      (by decide) (by decide) (by decide)).trans rfl
  · intro c; exact applyMeta_of_not_title (by decide)

/-- Witness for C10 at a concrete title line. -/
theorem c10_title_recognition_witness :
    (List.isPrefixOf titleKey (dropWhileWs (("titleA: x").data)) = true) ∧
    (findCharIdx (("titleA: x").data) ':' = some 6) ∧
    (rustTrim ((("titleA: x").data).drop 7) ≠ []) ∧
    applyMeta { stream_index := 4, lang := none, format := ("ass").data, title := none }
        (("titleA: x").data) =
      { stream_index := 4, lang := none, format := ("ass").data,
        title := some (rustTrim ((("titleA: x").data).drop 7)) } :=
  ⟨by decide, by decide, by decide,
    c10_title_recognition_prefix_case_sensitive.2.1
      { stream_index := 4, lang := none, format := ("ass").data, title := none }
      (("titleA: x").data) 6 (by decide) (by decide) (by decide)⟩

/-- C6: when the shared temp file already exists, choosing abort makes the
call fail with the conflict error naming the stale temp path while
performing no filesystem mutation at all (so any pre-existing final output
is unchanged), and choosing overwrite deletes the temp file before the
external extraction command runs. -/
theorem c6_temp_collision_abort_or_overwrite :
    ∀ (path : Str) (track : SubtitleTrack) (env : ExtractEnv),
      (env.outExists = false ∨ env.overwriteFinal = true) →
      env.tempExists = true →
      ((env.overwriteTemp = false →
         extract_subtitle_track path track env =
           ([], .failed (tempExistsMsg ++
             (("output.").data ++ extension_for_format track.format)))) ∧
       (env.overwriteTemp = true →
         ∃ evs : List FsEvent,
           (extract_subtitle_track path track env).1 =
             FsEvent.removeFile (("output.").data ++ extension_for_format track.format) ::
             FsEvent.runFfmpeg path (("0:s:").data ++ natToChars track.stream_index)
               (container_format_for track.format)
               (("output.").data ++ extension_for_format track.format) :: evs)) := by
  intro path track env h1 h2
  obtain ⟨oe, te, ofin, otmp, cs, cst⟩ := env
  simp only at h1 h2
  subst h2
  constructor
  · intro h3
    simp only at h3
    subst h3
    rcases h1 with h | h <;> subst h <;>
      simp [extract_subtitle_track]
  · intro h3
    simp only at h3
    subst h3
    rcases h1 with h | h <;> subst h <;>
      cases cs <;>
      simp [extract_subtitle_track]

/-- Witness for C6: a concrete call with a stale temp file and an abort
answer fails with the conflict message and performs no filesystem event. -/
theorem c6_temp_collision_witness :
    extract_subtitle_track (("movie.mkv").data)
        { stream_index := 0, lang := some (("eng").data), format := ("subrip").data,
          title := none }
        { outExists := false, tempExists := true, overwriteFinal := true,
          overwriteTemp := false, cmdSuccess := true, cmdStderr := [] } =
      ([], .failed (tempExistsMsg ++
        (("output.").data ++ extension_for_format (("subrip").data)))) :=
  (c6_temp_collision_abort_or_overwrite (("movie.mkv").data)
      { stream_index := 0, lang := some (("eng").data), format := ("subrip").data,
        title := none }
      { outExists := false, tempExists := true, overwriteFinal := true,
        overwriteTemp := false, cmdSuccess := true, cmdStderr := [] }
      (Or.inl rfl) rfl).1 rfl

/-! Lemmas about the parsing loop. -/

lemma trackProj_applyMeta (c : SubtitleTrack) (l : Str) :
    trackProj (applyMeta c l) = trackProj c := by
  simp only [applyMeta]
  split
  · split
    · split <;> rfl
    · rfl
  · rfl

lemma applyMeta_titleValue (c : SubtitleTrack) (l : Str) :
    applyMeta c l =
      match titleValue l with
      | some v => { c with title := some v }
      | none => c := by
  simp only [applyMeta, titleValue]
  split
  · split
    · split <;> simp_all
    · rfl
  · rfl

lemma enumLoop_ok_proj :
    ∀ (lines : List Str) (acc : List SubtitleTrack) (cur : Option SubtitleTrack)
      (res : List SubtitleTrack),
      enumLoop lines acc cur = .ok res →
      res.map trackProj =
        acc.map trackProj ++ cur.toList.map trackProj ++ lines.filterMap headerProj := by
  intro lines
  induction lines with
  | nil =>
    intro acc cur res h
    simp only [enumLoop] at h
    cases h
    simp
  | cons l rest ih =>
    intro acc cur res h
    simp only [enumLoop] at h
    by_cases hh : isSubtitleHeader l = true
    · rw [if_pos hh] at h
      rcases hp : parseHeader l with e | v
      · rw [hp] at h; cases h
      · obtain ⟨num, lg, f⟩ := v
        rw [hp] at h
        have := ih _ _ _ h
        rw [this]
        simp [headerProj, hh, hp, List.filterMap_cons, trackProj]
    · rw [if_neg hh] at h
      have hproj : headerProj l = none := by
        simp [headerProj, hh]
      cases cur with
      | some c =>
        have := ih _ _ _ h
        rw [this]
        simp [hproj, List.filterMap_cons, trackProj_applyMeta]
      | none =>
        have := ih _ _ _ h
        rw [this]
        simp [hproj, List.filterMap_cons]

lemma enumLoop_ok_of_wf :
    ∀ (lines : List Str) (acc : List SubtitleTrack) (cur : Option SubtitleTrack),
      (∀ l ∈ lines, isSubtitleHeader l = true → parsedOk l = true) →
      ∃ res, enumLoop lines acc cur = .ok res := by
  intro lines
  induction lines with
  | nil => intro acc cur _; exact ⟨acc ++ cur.toList, rfl⟩
  | cons l rest ih =>
    intro acc cur hwf
    simp only [enumLoop]
    by_cases hh : isSubtitleHeader l = true
    · rw [if_pos hh]
      have hok : parsedOk l = true := hwf l (by simp) hh
      rcases hp : parseHeader l with e | v
      · rw [parsedOk, hp] at hok; cases hok
      · obtain ⟨num, lg, f⟩ := v
        exact ih _ _ (fun x hx hhx => hwf x (by simp [hx]) hhx)
    · rw [if_neg hh]
      cases cur with
      | some c => exact ih _ _ (fun x hx hhx => hwf x (by simp [hx]) hhx)
      | none => exact ih _ _ (fun x hx hhx => hwf x (by simp [hx]) hhx)

lemma enumLoop_error_source :
    ∀ (lines : List Str) (acc : List SubtitleTrack) (cur : Option SubtitleTrack) (e : Str),
      enumLoop lines acc cur = .error e →
      ∃ l ∈ lines, isSubtitleHeader l = true ∧ parseHeader l = .error e := by
  intro lines
  induction lines with
  | nil => intro acc cur e h; simp only [enumLoop] at h; cases h
  | cons l rest ih =>
    intro acc cur e h
    simp only [enumLoop] at h
    by_cases hh : isSubtitleHeader l = true
    · rw [if_pos hh] at h
      rcases hp : parseHeader l with e' | v
      · rw [hp] at h
        cases h
        exact ⟨l, by simp, hh, hp⟩
      · obtain ⟨num, lg, f⟩ := v
        rw [hp] at h
        obtain ⟨x, hx, hx2⟩ := ih _ _ _ h
        exact ⟨x, by simp [hx], hx2⟩
    · rw [if_neg hh] at h
      cases cur with
      | some c =>
        obtain ⟨x, hx, hx2⟩ := ih _ _ _ h
        exact ⟨x, by simp [hx], hx2⟩
      | none =>
        obtain ⟨x, hx, hx2⟩ := ih _ _ _ h
        exact ⟨x, by simp [hx], hx2⟩

lemma enumLoop_error_of_bad :
    ∀ (lines : List Str) (acc : List SubtitleTrack) (cur : Option SubtitleTrack) (l : Str),
      l ∈ lines → isSubtitleHeader l = true → parsedOk l = false →
      ∃ e, enumLoop lines acc cur = .error e := by
  intro lines
  induction lines with
  | nil => intro acc cur l h; cases h
  | cons x rest ih =>
    intro acc cur l hmem hhdr hbad
    simp only [enumLoop]
    by_cases hh : isSubtitleHeader x = true
    · rw [if_pos hh]
      rcases hp : parseHeader x with e' | v
      · exact ⟨e', rfl⟩
      · obtain ⟨num, lg, f⟩ := v
        rcases List.mem_cons.mp hmem with heq | hmem'
        · subst heq
          rw [parsedOk, hp] at hbad; cases hbad
        · exact ih _ _ l hmem' hhdr hbad
    · rw [if_neg hh]
      rcases List.mem_cons.mp hmem with heq | hmem'
      · subst heq; exact absurd hhdr hh
      · cases cur with
        | some c => exact ih _ _ l hmem' hhdr hbad
        | none => exact ih _ _ l hmem' hhdr hbad

lemma renumberFrom_length : ∀ (ts : List SubtitleTrack) (i : Nat),
    (renumberFrom i ts).length = ts.length := by
  intro ts
  induction ts with
  | nil => intro i; rfl
  | cons t rest ih => intro i; simp [renumberFrom, ih]

lemma renumberFrom_map_proj : ∀ (ts : List SubtitleTrack) (i : Nat),
    (renumberFrom i ts).map trackProj = ts.map trackProj := by
  intro ts
  induction ts with
  | nil => intro i; rfl
  | cons t rest ih => intro i; simp [renumberFrom, ih, trackProj]

lemma renumberFrom_map_index : ∀ (ts : List SubtitleTrack) (i : Nat),
    (renumberFrom i ts).map SubtitleTrack.stream_index =
      (List.range' i ts.length).map (· % 2 ^ 32) := by
  intro ts
  induction ts with
  | nil => intro i; rfl
  | cons t rest ih =>
    intro i
    simp [renumberFrom, List.range'_succ, ih]

lemma filterMap_headerProj_length :
    ∀ lines : List Str,
      (∀ l ∈ lines, isSubtitleHeader l = true → parsedOk l = true) →
      (lines.filterMap headerProj).length = (lines.filter isSubtitleHeader).length := by
  intro lines
  induction lines with
  | nil => intro _; rfl
  | cons l rest ih =>
    intro hwf
    have hrest := ih (fun x hx => hwf x (by simp [hx]))
    by_cases hh : isSubtitleHeader l = true
    · have hok : parsedOk l = true := hwf l (by simp) hh
      rcases hp : parseHeader l with e | v
      · rw [parsedOk, hp] at hok; cases hok
      · obtain ⟨num, lg, f⟩ := v
        simp [List.filterMap_cons, List.filter_cons, hh, headerProj, hp, hrest]
    · simp [List.filterMap_cons, List.filter_cons, hh, headerProj, hrest]

lemma parseU32_error_msgs (s : Str) (e : Str) (h : parseU32 s = .error e) :
    e = intEmptyMsg ∨ e = intInvalidMsg ∨ e = intOverflowMsg := by
  rcases s with _ | ⟨c, rest⟩
  · simp only [parseU32, Except.error.injEq] at h
    exact Or.inl h.symm
  · simp only [parseU32] at h
    split_ifs at h <;> simp_all

lemma containsSubstr_append_self (a l : Str) : containsSubstr (a ++ l) l = true := by
  induction a with
  | nil =>
    show containsSubstr l l = true
    rw [containsSubstr.eq_def]
    simp [List.isPrefixOf_iff_prefix]
  | cons c t ih =>
    show containsSubstr (c :: (t ++ l)) l = true
    rw [containsSubstr.eq_def]
    simp [ih]

lemma findSome?_append_match {α β : Type} (f : α → Option β) (a b : List α) :
    (a ++ b).findSome? f =
      match a.findSome? f with
      | some v => some v
      | none => b.findSome? f := by
  induction a with
  | nil => simp
  | cons x t ih =>
    simp only [List.cons_append, List.findSome?_cons]
    cases f x <;> simp [ih]

/-- C1: if every subtitle header line of the diagnostic text is
well-formed (and there are at most `2 ^ 32` of them, the `u32` range of
the index field), enumeration succeeds with exactly one track per header
line, in header order, and after renumbering the `stream_index` values
are exactly `0..N-1`. -/
theorem c1_one_track_per_header_contiguous_indices :
    ∀ text : Str,
      (∀ l ∈ rustLines text, isSubtitleHeader l = true → parsedOk l = true) →
      ((rustLines text).filter isSubtitleHeader).length ≤ 2 ^ 32 →
      ∃ ts, enumerate_subtitle_tracks text = .ok ts ∧
        ts.length = ((rustLines text).filter isSubtitleHeader).length ∧
        ts.map SubtitleTrack.stream_index = List.range ts.length ∧
        ts.map trackProj = (rustLines text).filterMap headerProj := by
  intro text hwf hbound
  obtain ⟨res, hres⟩ := enumLoop_ok_of_wf (rustLines text) [] none hwf
  have hproj := enumLoop_ok_proj _ _ _ _ hres
  simp only [List.map_nil, Option.toList_none, List.nil_append] at hproj
  have hlen : res.length = ((rustLines text).filterMap headerProj).length := by
    have := congrArg List.length hproj
    simpa using this
  have hlen2 : res.length = ((rustLines text).filter isSubtitleHeader).length := by
    rw [hlen, filterMap_headerProj_length _ hwf]
  refine ⟨renumberFrom 0 res, ?_, ?_, ?_, ?_⟩
  · simp [enumerate_subtitle_tracks, hres]
  · rw [renumberFrom_length]; exact hlen2
  · rw [renumberFrom_map_index, renumberFrom_length, ← List.range_eq_range']
    refine (List.map_congr_left ?_).trans (List.map_id _)
    intro i hi
    have hi2 : i < res.length := List.mem_range.mp hi
    exact Nat.mod_eq_of_lt (lt_of_lt_of_le hi2 (le_trans (le_of_eq hlen2) hbound))
  · rw [renumberFrom_map_proj]; exact hproj

/-- Witness for C1 on a two-header text with non-contiguous raw indices. -/
theorem c1_witness :
    (∀ l ∈ rustLines (("Stream #0:4(eng): Subtitle: subrip\nStream #0:9: Subtitle: ass").data),
       isSubtitleHeader l = true → parsedOk l = true) ∧
    (((rustLines (("Stream #0:4(eng): Subtitle: subrip\nStream #0:9: Subtitle: ass").data)).filter
        isSubtitleHeader).length ≤ 2 ^ 32) ∧
    (∃ ts, enumerate_subtitle_tracks
        (("Stream #0:4(eng): Subtitle: subrip\nStream #0:9: Subtitle: ass").data) = .ok ts ∧
      ts.length = ((rustLines
        (("Stream #0:4(eng): Subtitle: subrip\nStream #0:9: Subtitle: ass").data)).filter
          isSubtitleHeader).length ∧
      ts.map SubtitleTrack.stream_index = List.range ts.length ∧
      ts.map trackProj = (rustLines
        (("Stream #0:4(eng): Subtitle: subrip\nStream #0:9: Subtitle: ass").data)).filterMap
          headerProj) :=
  ⟨by decide, by decide,
    c1_one_track_per_header_contiguous_indices
      (("Stream #0:4(eng): Subtitle: subrip\nStream #0:9: Subtitle: ass").data)
      (by decide) (by decide)⟩

/-- Counterexample to C5 as stated: the header line
`Stream #0:1: Subtitle:` parses successfully (no colon follows the
`Subtitle:` marker, so the token split yields the empty string) and the
enumerator returns a track whose `format` is the empty string, which is
not a non-empty lower-case string. -/
theorem c5_counterexample_empty_format :
    ¬ (∀ ts : List SubtitleTrack,
         enumerate_subtitle_tracks (("Stream #0:1: Subtitle:").data) = .ok ts →
         ∀ t ∈ ts, t.format ≠ []) := by
  intro h
  have h2 := h [{ stream_index := 0, lang := none, format := [], title := none }] rfl
  exact h2 { stream_index := 0, lang := none, format := [], title := none } (by simp) rfl

/-- C5 (amended): on every successful return each track's `lang` and
`format` are exactly the values parsed from its header line — they are
never mutated after creation, only `stream_index` is rewritten by the
renumbering pass; `format` is the first whitespace/comma/paren-delimited
token after `Subtitle:`, which may be empty and is not case-normalized. -/
theorem c5_lang_format_never_mutated :
    ∀ (text : Str) (ts : List SubtitleTrack),
      enumerate_subtitle_tracks text = .ok ts →
      ts.map trackProj = (rustLines text).filterMap headerProj := by
  intro text ts h
  unfold enumerate_subtitle_tracks at h
  rcases hres : enumLoop (rustLines text) [] none with e | res
  · rw [hres] at h; cases h
  · rw [hres] at h
    cases h
    rw [renumberFrom_map_proj]
    have := enumLoop_ok_proj _ _ _ _ hres
    simpa using this

/-- Witness for C5 on a text with a header and a title line. -/
theorem c5_witness :
    (enumerate_subtitle_tracks (("Stream #0:7: Subtitle: ass\n title : Yo").data) =
       .ok [{ stream_index := 0, lang := none, format := ("ass").data,
              title := some (("Yo").data) }]) ∧
    ([{ stream_index := 0, lang := none, format := ("ass").data,
        title := some (("Yo").data) }].map trackProj =
      (rustLines (("Stream #0:7: Subtitle: ass\n title : Yo").data)).filterMap headerProj) :=
  ⟨rfl, c5_lang_format_never_mutated (("Stream #0:7: Subtitle: ass\n title : Yo").data)
    [{ stream_index := 0, lang := none, format := ("ass").data,
       title := some (("Yo").data) }] rfl⟩

/-- Counterexample to C3 as stated: the header `Stream #5(eng): Subtitle:
subrip` is malformed (no colon before the numeric index); enumeration does
fail, but the error message contains only the offending numeric portion
`'5'`, not the original line text. -/
theorem c3_counterexample_message_lacks_line :
    enumerate_subtitle_tracks (("Stream #5(eng): Subtitle: subrip").data) =
      .error ((noColonNumericMsg ++ ("5").data) ++ ("'").data) ∧
    containsSubstr ((noColonNumericMsg ++ ("5").data) ++ ("'").data)
      (("Stream #5(eng): Subtitle: subrip").data) = false :=
  ⟨rfl, by decide⟩

set_option maxHeartbeats 1000000 in
/-- C3 (amended): a malformed subtitle header (missing colon separator or
unterminated parenthesis) makes the whole enumeration of that text fail
with a parse error instead of silently skipping the line; every parse
error is one of the header error messages or an integer-parse message;
the unterminated-parenthesis message contains the original offending line
text, while the missing-colon messages carry only the offending
numeric/stream portion. -/
theorem c3_malformed_header_aborts :
    (∀ (text : Str) (l : Str),
       l ∈ rustLines text → isSubtitleHeader l = true → parsedOk l = false →
       ∃ e, enumerate_subtitle_tracks text = .error e) ∧
    (∀ (l e : Str),
       parseHeader l = .error e →
       e = noSubtitleMsg ++ l ∨
       e = unclosedParenMsg ++ l ∨
       (∃ s, e = (noColonNumericMsg ++ s) ++ ("'").data) ∨
       (∃ s, e = (noColonStreamMsg ++ s) ++ ("'").data) ∨
       e = intEmptyMsg ∨ e = intInvalidMsg ∨ e = intOverflowMsg) ∧
    (∀ l : Str, containsSubstr (unclosedParenMsg ++ l) l = true) := by
  refine ⟨?_, ?_, ?_⟩
  · intro text l hmem hhdr hbad
    obtain ⟨e, he⟩ := enumLoop_error_of_bad (rustLines text) [] none l hmem hhdr hbad
    exact ⟨e, by simp [enumerate_subtitle_tracks, he]⟩
  · intro l e h
    unfold parseHeader at h
    dsimp only at h
    split at h
    · cases h
      exact Or.inl rfl
    · split at h
      · split at h
        · cases h
          exact Or.inr (Or.inl rfl)
        · split at h
          · cases h
            exact Or.inr (Or.inr (Or.inl ⟨_, rfl⟩))
          · split at h
            · cases h
              rename_i hp
              rcases parseU32_error_msgs _ _ hp with h1 | h1 | h1
              · exact Or.inr (Or.inr (Or.inr (Or.inr (Or.inl h1))))
              · exact Or.inr (Or.inr (Or.inr (Or.inr (Or.inr (Or.inl h1)))))
              · exact Or.inr (Or.inr (Or.inr (Or.inr (Or.inr (Or.inr h1)))))
            · cases h
      · split at h
        · cases h
          exact Or.inr (Or.inr (Or.inr (Or.inl ⟨_, rfl⟩)))
        · split at h
          · cases h
            rename_i hp
            rcases parseU32_error_msgs _ _ hp with h1 | h1 | h1
            · exact Or.inr (Or.inr (Or.inr (Or.inr (Or.inl h1))))
            · exact Or.inr (Or.inr (Or.inr (Or.inr (Or.inr (Or.inl h1)))))
            · exact Or.inr (Or.inr (Or.inr (Or.inr (Or.inr (Or.inr h1)))))
          · cases h
  · intro l
    exact containsSubstr_append_self _ _

/-- Witness for C3 on a concrete malformed header. -/
theorem c3_witness :
    ((("Stream #7(eng): Subtitle: subrip").data ∈
        rustLines (("Stream #7(eng): Subtitle: subrip").data)) ∧
     isSubtitleHeader (("Stream #7(eng): Subtitle: subrip").data) = true ∧
     parsedOk (("Stream #7(eng): Subtitle: subrip").data) = false) ∧
    ∃ e, enumerate_subtitle_tracks (("Stream #7(eng): Subtitle: subrip").data) = .error e :=
  ⟨⟨by decide, by decide, by decide⟩,
    c3_malformed_header_aborts.1 (("Stream #7(eng): Subtitle: subrip").data)
      (("Stream #7(eng): Subtitle: subrip").data) (by decide) (by decide) (by decide)⟩

/-- C4: a block of non-header lines between a track's header and the next
header (or the end of input) affects only the in-progress track's title:
the title becomes the value of the last title line in the block carrying a
non-empty trimmed value after its first colon (title lines with an empty
value are ignored, later values overwrite earlier ones), the already
emitted tracks and the in-progress track's other fields are untouched, so
a title line never attaches to any track but the current one. -/
theorem c4_title_attaches_to_current_block_last_wins :
    ∀ (mid rest : List Str) (acc : List SubtitleTrack) (c : SubtitleTrack),
      (∀ l ∈ mid, isSubtitleHeader l = false) →
      enumLoop (mid ++ rest) acc (some c) =
        enumLoop rest acc (some { c with title :=
          match (List.findSome? titleValue mid.reverse) with
          | some v => some v
          | none => c.title }) := by
  intro mid
  induction mid with
  | nil =>
    intro rest acc c _
    simp only [List.nil_append, List.reverse_nil, List.findSome?_nil]
  | cons m t ih =>
    intro rest acc c hnh
    have hm : isSubtitleHeader m = false := hnh m (by simp)
    have step : enumLoop ((m :: t) ++ rest) acc (some c) =
        enumLoop (t ++ rest) acc (some (applyMeta c m)) := by
      simp only [List.cons_append, enumLoop, hm]
      rw [if_neg (by simp)]
      rfl
    rw [step, ih rest acc (applyMeta c m) (fun x hx => hnh x (by simp [hx]))]
    congr 1
    rw [applyMeta_titleValue c m, List.reverse_cons, findSome?_append_match]
    rcases h1 : (List.findSome? titleValue t.reverse) with _ | v <;>
      rcases h2 : (titleValue m) with _ | w <;>
      simp [List.findSome?_cons, h2]

/-- Witness for C4 on a block with two title lines (last wins) and an
unrelated line. -/
theorem c4_title_block_witness :
    (∀ l ∈ [(" title : A").data, (" junk").data, (" title : B").data],
       isSubtitleHeader l = false) ∧
    (enumLoop ([(" title : A").data, (" junk").data, (" title : B").data] ++ []) []
        (some { stream_index := 2, lang := none, format := ("ass").data, title := none }) =
      enumLoop [] []
        (some { stream_index := 2, lang := none, format := ("ass").data, title :=
          match (List.findSome? titleValue
            ([(" title : A").data, (" junk").data, (" title : B").data]).reverse) with
          | some v => some v
          | none =>
            ({ stream_index := 2, lang := none, format := ("ass").data,
               title := none } : SubtitleTrack).title })) :=
  ⟨by decide,
    c4_title_attaches_to_current_block_last_wins
      [(" title : A").data, (" junk").data, (" title : B").data] [] []
      { stream_index := 2, lang := none, format := ("ass").data, title := none }
      (by decide)⟩

/-! Character-class and string-primitive lemmas used for the header
grammar analysis. -/

lemma isDigit_bounds {c : Char} (h : c.isDigit = true) :
    c.val ≥ 48 ∧ c.val ≤ 57 := by
  simpa only [Char.isDigit, Bool.and_eq_true, decide_eq_true_eq] using h

lemma isDigit_not_ws {c : Char} (h : c.isDigit = true) :
    rustIsWhitespace c = false := by
  obtain ⟨h0, h9⟩ := isDigit_bounds h
  by_contra hws
  rw [Bool.not_eq_false] at hws
  simp only [rustIsWhitespace, Bool.or_eq_true, Bool.and_eq_true,
    decide_eq_true_eq] at hws
  casesm* _ ∨ _
  all_goals try casesm* _ ∧ _
  all_goals first
    | (subst_vars; revert h0 h9; decide)
    | (rename_i h1 h2; rw [Char.le_def] at h1
       exact absurd (UInt32.le_trans h1 h9) (by decide))

lemma isDigit_ne {c : Char} (h : c.isDigit = true) :
    c ≠ ':' ∧ c ≠ '(' ∧ c ≠ ')' ∧ c ≠ 'S' ∧ c ≠ '+' := by
  obtain ⟨h0, h9⟩ := isDigit_bounds h
  refine ⟨?_, ?_, ?_, ?_, ?_⟩ <;> (rintro rfl; revert h0 h9; decide)

lemma dropWhileWs_cons_of {c : Char} (t : Str) (h : rustIsWhitespace c = false) :
    dropWhileWs (c :: t) = c :: t := by
  simp [dropWhileWs, List.dropWhile_cons, h]

lemma dropWhile_append_of_ne {p : Char → Bool} {x : Str} (y : Str)
    (h : x.dropWhile p ≠ []) : (x ++ y).dropWhile p = x.dropWhile p ++ y := by
  rw [List.dropWhile_append, if_neg (by simpa [List.isEmpty_iff] using h)]

lemma dropWhile_eq_self_of_all {p : Char → Bool} {x : Str}
    (h : ∀ c ∈ x, p c = false) : x.dropWhile p = x := by
  cases x with
  | nil => rfl
  | cons c t => rw [List.dropWhile_cons, if_neg (by simp [h c (by simp)])]

lemma trimEnd_append_of {x y : Str} (h : trimEnd y ≠ []) :
    trimEnd (x ++ y) = x ++ trimEnd y := by
  unfold trimEnd at *
  rw [List.reverse_append, dropWhile_append_of_ne _ (by simpa using h),
    List.reverse_append, List.reverse_reverse]

lemma trimEnd_eq_self_of_all {x : Str}
    (h : ∀ c ∈ x, rustIsWhitespace c = false) : trimEnd x = x := by
  unfold trimEnd
  rw [dropWhile_eq_self_of_all (fun c hc => h c (List.mem_reverse.mp hc)),
    List.reverse_reverse]

lemma trimEndMatches_append_of {x' : Char} {x y : Str}
    (h : trimEndMatches y x' ≠ []) :
    trimEndMatches (x ++ y) x' = x ++ trimEndMatches y x' := by
  unfold trimEndMatches at *
  rw [List.reverse_append, dropWhile_append_of_ne _ (by simpa using h),
    List.reverse_append, List.reverse_reverse]

lemma trimEndMatches_eq_self_of_notMem {x' : Char} {x : Str} (h : x' ∉ x) :
    trimEndMatches x x' = x := by
  unfold trimEndMatches
  rw [dropWhile_eq_self_of_all, List.reverse_reverse]
  intro c hc
  simp only [decide_eq_false_iff_not]
  intro he
  exact h (by simpa [he] using List.mem_reverse.mp hc)

lemma trimEndMatches_append_single {x' : Char} (s : Str) :
    trimEndMatches (s ++ [x']) x' = trimEndMatches s x' := by
  unfold trimEndMatches
  rw [List.reverse_append]
  simp [List.dropWhile_cons]

lemma splitOnce_first_at {c : Char} (n' : Str) {a : Str} (r : Str) (h : c ∉ a) :
    splitOnce (a ++ ((c :: n') ++ r)) (c :: n') = some (a, r) := by
  induction a with
  | nil =>
    rw [List.nil_append, splitOnce.eq_def,
      if_pos (by rw [List.isPrefixOf_iff_prefix]; exact List.prefix_append _ _),
      List.drop_left]
  | cons x t ih =>
    have hx : ¬ (c = x) := fun he => h (by simp [he])
    rw [List.cons_append, splitOnce.eq_def, if_neg]
    · dsimp only
      rw [ih (fun hm => h (by simp [hm]))]
      rfl
    · rw [List.isPrefixOf_iff_prefix, List.cons_prefix_cons]
      exact fun hc => hx hc.1

lemma findCharIdx_eq_none {x : Char} {s : Str} (h : x ∉ s) :
    findCharIdx s x = none := by
  induction s with
  | nil => rfl
  | cons c t ih =>
    rw [findCharIdx, if_neg (fun he => h (by simp [he]))]
    rw [ih (fun hm => h (by simp [hm]))]
    rfl

lemma findCharIdx_append_cons {x : Char} {a : Str} (b : Str) (h : x ∉ a) :
    findCharIdx (a ++ x :: b) x = some a.length := by
  induction a with
  | nil => rw [List.nil_append, findCharIdx, if_pos rfl]; rfl
  | cons c t ih =>
    rw [List.cons_append, findCharIdx,
      if_neg (fun he => h (by simp [he])),
      ih (fun hm => h (by simp [hm]))]
    rfl

lemma rfindCharIdx_eq_none {x : Char} {s : Str} (h : x ∉ s) :
    rfindCharIdx s x = none := by
  induction s with
  | nil => rfl
  | cons c t ih =>
    rw [rfindCharIdx, ih (fun hm => h (by simp [hm])),
      if_neg (fun he => h (by simp [he]))]

lemma rfindCharIdx_append_right_none {x : Char} (a : Str) {b : Str} (h : x ∉ b) :
    rfindCharIdx (a ++ b) x = rfindCharIdx a x := by
  induction a with
  | nil => rw [List.nil_append, rfindCharIdx_eq_none h]; rfl
  | cons c t ih =>
    rw [List.cons_append, rfindCharIdx, ih]
    rfl

lemma parseU32_digits {ds : Str} (hne : ds ≠ [])
    (hd : ∀ c ∈ ds, c.isDigit = true) (hv : decimalVal ds < 2 ^ 32) :
    parseU32 ds = .ok (decimalVal ds) := by
  cases ds with
  | nil => exact absurd rfl hne
  | cons c t =>
    have hc : c.isDigit = true := hd c (by simp)
    have hplus : ¬ (c = '+') := (isDigit_ne hc).2.2.2.2
    simp only [parseU32]
    rw [if_neg hplus]
    rw [if_neg (by simp)]
    rw [if_pos (by rw [List.all_eq_true]; exact fun x hx => hd x hx)]
    rw [if_pos hv]

lemma containsSubstr_middle (a n r : Str) : containsSubstr (a ++ (n ++ r)) n = true := by
  induction a with
  | nil =>
    rw [List.nil_append, containsSubstr.eq_def,
      if_pos (by rw [List.isPrefixOf_iff_prefix]; exact List.prefix_append _ _)]
  | cons c t ih =>
    rw [List.cons_append, containsSubstr.eq_def]
    simp [ih]

set_option maxHeartbeats 1000000 in
lemma parseHeader_withLang (ds tag rest : Str)
    (hne : ds ≠ []) (hd : ∀ c ∈ ds, c.isDigit = true)
    (hv : decimalVal ds < 2 ^ 32)
    (htS : 'S' ∉ tag) (htP : ')' ∉ tag)
    (hr1 : dropWhileWs rest = rest) (hr2 : trimEnd rest = rest) (hr3 : rest ≠ []) :
    parseHeader (withLangHeader ds tag rest) =
      .ok (decimalVal ds, some tag,
        rustTrim (rest.takeWhile (fun c => !formatDelim c))) := by
  have hdsWs : ∀ c ∈ ds, rustIsWhitespace c = false := fun c hc => isDigit_not_ws (hd c hc)
  have hdsS : 'S' ∉ ds := fun hm => absurd (hd _ hm) (by decide)
  have hdsC : ':' ∉ ds := fun hm => absurd (hd _ hm) (by decide)
  have hdsO : '(' ∉ ds := fun hm => absurd (hd _ hm) (by decide)
  -- landmark strings
  have e1 : dropWhileWs (withLangHeader ds tag rest) = withLangHeader ds tag rest := by
    rw [show withLangHeader ds tag rest =
      'S' :: (("tream #0:").data ++ (ds ++ '(' :: (tag ++ (("): Subtitle: ").data ++ rest))))
      from rfl]
    exact dropWhileWs_cons_of _ (by decide)
  have e2 : List.drop streamMarker.length (withLangHeader ds tag rest) =
      '0' :: ':' :: (ds ++ '(' :: (tag ++ (("): Subtitle: ").data ++ rest))) := rfl
  have e3 : rustTrim ('0' :: ':' :: (ds ++ '(' :: (tag ++ (("): Subtitle: ").data ++ rest)))) =
      '0' :: ':' :: (ds ++ '(' :: (tag ++ (("): Subtitle: ").data ++ rest))) := by
    have e3a : ('0' :: ':' :: (ds ++ '(' :: (tag ++ (("): Subtitle: ").data ++ rest))) : Str) =
        ('0' :: ':' :: (ds ++ '(' :: (tag ++ ("): Subtitle: ").data))) ++ rest := by
      simp [List.append_assoc]
    rw [rustTrim, dropWhileWs_cons_of _ (by decide), e3a,
      trimEnd_append_of (by rw [hr2]; exact hr3), hr2]
  have hSa : 'S' ∉ ('0' :: ':' :: (ds ++ '(' :: (tag ++ ([')', ':', ' '] : Str)))) := by
    intro hm
    simp only [List.mem_cons, List.mem_append] at hm
    rcases hm with h | h | h | h
    · exact absurd h (by decide)
    · exact absurd h (by decide)
    · exact hdsS h
    · rcases h with h | h
      · exact absurd h (by decide)
      · rcases h with h | h
        · exact htS h
        · exact absurd h (by decide)
  have e4 : splitOnce
      ('0' :: ':' :: (ds ++ '(' :: (tag ++ (("): Subtitle: ").data ++ rest))))
      subtitleColonWord =
      some (('0' :: ':' :: (ds ++ '(' :: (tag ++ ([')', ':', ' '] : Str)))), ' ' :: rest) := by
    have lit : ("): Subtitle: ").data =
        ([')', ':', ' '] : Str) ++ (('S' :: ("ubtitle:").data) ++ ([' '] : Str)) := rfl
    have e4a : ('0' :: ':' :: (ds ++ '(' :: (tag ++ (("): Subtitle: ").data ++ rest))) : Str) =
        ('0' :: ':' :: (ds ++ '(' :: (tag ++ ([')', ':', ' '] : Str)))) ++
          (('S' :: ("ubtitle:").data) ++ (' ' :: rest)) := by
      rw [lit]; simp [List.append_assoc]
    rw [show subtitleColonWord = 'S' :: ("ubtitle:").data from rfl, e4a]
    exact splitOnce_first_at _ _ hSa
  -- the left part of the split, trimmed down to the stream_part
  have e5 : rustTrim ('0' :: ':' :: (ds ++ '(' :: (tag ++ ([')', ':', ' '] : Str)))) =
      ('0' :: ':' :: (ds ++ '(' :: tag)) ++ ([')', ':'] : Str) := by
    have e5a : ('0' :: ':' :: (ds ++ '(' :: (tag ++ ([')', ':', ' '] : Str))) : Str) =
        ('0' :: ':' :: (ds ++ '(' :: tag)) ++ ([')', ':', ' '] : Str) := by
      simp [List.append_assoc]
    rw [rustTrim, dropWhileWs_cons_of _ (by decide), e5a,
      trimEnd_append_of (show trimEnd ([')', ':', ' '] : Str) ≠ [] by decide)]
    rfl
  have e6b : ('0' :: ':' :: (ds ++ '(' :: tag)) ++ ([')'] : Str) =
      '0' :: ':' :: (ds ++ '(' :: (tag ++ ([')'] : Str))) := by
    simp [List.append_assoc]
  have e6 : trimEndMatches (('0' :: ':' :: (ds ++ '(' :: tag)) ++ ([')', ':'] : Str)) ':' =
      '0' :: ':' :: (ds ++ '(' :: (tag ++ ([')'] : Str))) := by
    rw [trimEndMatches_append_of (show trimEndMatches ([')', ':'] : Str) ':' ≠ [] by decide)]
    rw [show trimEndMatches ([')', ':'] : Str) ':' = ([')'] : Str) from rfl]
    exact e6b
  have e7 : rustTrim ('0' :: ':' :: (ds ++ '(' :: (tag ++ ([')'] : Str)))) =
      '0' :: ':' :: (ds ++ '(' :: (tag ++ ([')'] : Str))) := by
    rw [rustTrim, dropWhileWs_cons_of _ (by decide), ← e6b,
      trimEnd_append_of (show trimEnd ([')'] : Str) ≠ [] by decide)]
    rw [show trimEnd ([')'] : Str) = ([')'] : Str) from rfl]
  have e8 : rustTrim (' ' :: rest) = rest := by
    rw [rustTrim, show dropWhileWs (' ' :: rest) = dropWhileWs rest from by
      rw [dropWhileWs, List.dropWhile_cons, if_pos (by decide)]; rfl, hr1, hr2]
  have hOds : '(' ∉ ('0' :: ':' :: ds : Str) := by
    intro hm
    simp only [List.mem_cons] at hm
    rcases hm with h | h | h
    · exact absurd h (by decide)
    · exact absurd h (by decide)
    · exact hdsO h
  have e9a : ('0' :: ':' :: (ds ++ '(' :: (tag ++ ([')'] : Str))) : Str) =
      ('0' :: ':' :: ds) ++ ('(' :: (tag ++ ([')'] : Str))) := by
    simp [List.append_assoc]
  have e9 : findCharIdx ('0' :: ':' :: (ds ++ '(' :: (tag ++ ([')'] : Str)))) '(' =
      some (('0' :: ':' :: ds : Str).length) := by
    rw [e9a]
    exact findCharIdx_append_cons _ hOds
  have e10 : findCharIdx (tag ++ ([')'] : Str)) ')' = some tag.length :=
    findCharIdx_append_cons _ htP
  have e11 : (tag ++ ([')'] : Str)).take tag.length = tag := List.take_left _ _
  have e12a : List.take (('0' :: ':' :: ds : Str).length)
      ('0' :: ':' :: (ds ++ '(' :: (tag ++ ([')'] : Str)))) = '0' :: ':' :: ds := by
    rw [e9a]
    exact List.take_left _ _
  have e12b : List.drop ((('0' :: ':' :: ds : Str).length) + 1)
      ('0' :: ':' :: (ds ++ '(' :: (tag ++ ([')'] : Str)))) = tag ++ ([')'] : Str) := by
    have : ('0' :: ':' :: (ds ++ '(' :: (tag ++ ([')'] : Str))) : Str) =
        (('0' :: ':' :: ds) ++ (['('] : Str)) ++ (tag ++ ([')'] : Str)) := by
      simp [List.append_assoc]
    rw [this, show (('0' :: ':' :: ds : Str).length) + 1 =
      (('0' :: ':' :: ds) ++ (['('] : Str)).length from by simp]
    exact List.drop_left _ _
  have e12c : rustTrim (trimEndMatches ('0' :: ':' :: ds) ':') = '0' :: ':' :: ds := by
    have h1 : trimEndMatches ('0' :: ':' :: ds) ':' = '0' :: ':' :: ds := by
      rw [show ('0' :: ':' :: ds : Str) = (['0', ':'] : Str) ++ ds from rfl,
        trimEndMatches_append_of (by rw [trimEndMatches_eq_self_of_notMem hdsC]; exact hne),
        trimEndMatches_eq_self_of_notMem hdsC]
    rw [h1, rustTrim, dropWhileWs_cons_of _ (by decide),
      show ('0' :: ':' :: ds : Str) = (['0', ':'] : Str) ++ ds from rfl,
      trimEnd_append_of (by rw [trimEnd_eq_self_of_all hdsWs]; exact hne),
      trimEnd_eq_self_of_all hdsWs]
  have e13 : rfindCharIdx ('0' :: ':' :: ds) ':' = some 1 := by
    rw [show ('0' :: ':' :: ds : Str) = (['0', ':'] : Str) ++ ds from rfl,
      rfindCharIdx_append_right_none _ hdsC]
    rfl
  have e14 : List.drop (1 + 1) ('0' :: ':' :: ds) = ds := rfl
  have e15 : parseU32 ds = Except.ok (decimalVal ds) := parseU32_digits hne hd hv
  unfold parseHeader
  simp only [e1, e2, e3, e4, e5, e6, e7, e8, e9, e10, e11, e12a, e12b, e12c, e13, e14, e15]

set_option maxHeartbeats 1000000 in
lemma parseHeader_noLang (ds rest : Str)
    (hne : ds ≠ []) (hd : ∀ c ∈ ds, c.isDigit = true)
    (hv : decimalVal ds < 2 ^ 32)
    (hr1 : dropWhileWs rest = rest) (hr2 : trimEnd rest = rest) (hr3 : rest ≠ []) :
    parseHeader (noLangHeader ds rest) =
      .ok (decimalVal ds, none,
        rustTrim (rest.takeWhile (fun c => !formatDelim c))) := by
  have hdsWs : ∀ c ∈ ds, rustIsWhitespace c = false := fun c hc => isDigit_not_ws (hd c hc)
  have hdsS : 'S' ∉ ds := fun hm => absurd (hd _ hm) (by decide)
  have hdsC : ':' ∉ ds := fun hm => absurd (hd _ hm) (by decide)
  have hdsO : '(' ∉ ds := fun hm => absurd (hd _ hm) (by decide)
  have e1 : dropWhileWs (noLangHeader ds rest) = noLangHeader ds rest := by
    rw [show noLangHeader ds rest =
      'S' :: (("tream #0:").data ++ (ds ++ ((": Subtitle: ").data ++ rest))) from rfl]
    exact dropWhileWs_cons_of _ (by decide)
  have e2 : List.drop streamMarker.length (noLangHeader ds rest) =
      '0' :: ':' :: (ds ++ ((": Subtitle: ").data ++ rest)) := rfl
  have e3 : rustTrim ('0' :: ':' :: (ds ++ ((": Subtitle: ").data ++ rest))) =
      '0' :: ':' :: (ds ++ ((": Subtitle: ").data ++ rest)) := by
    have e3a : ('0' :: ':' :: (ds ++ ((": Subtitle: ").data ++ rest)) : Str) =
        ('0' :: ':' :: (ds ++ (": Subtitle: ").data)) ++ rest := by
      simp [List.append_assoc]
    rw [rustTrim, dropWhileWs_cons_of _ (by decide), e3a,
      trimEnd_append_of (by rw [hr2]; exact hr3), hr2]
  have hSa : 'S' ∉ ('0' :: ':' :: (ds ++ ([':', ' '] : Str))) := by
    intro hm
    simp only [List.mem_cons, List.mem_append] at hm
    rcases hm with h | h | h | h
    · exact absurd h (by decide)
    · exact absurd h (by decide)
    · exact hdsS h
    · rcases h with h | h <;> exact absurd h (by decide)
  have e4 : splitOnce ('0' :: ':' :: (ds ++ ((": Subtitle: ").data ++ rest)))
      subtitleColonWord =
      some (('0' :: ':' :: (ds ++ ([':', ' '] : Str))), ' ' :: rest) := by
    have lit : (": Subtitle: ").data =
        ([':', ' '] : Str) ++ (('S' :: ("ubtitle:").data) ++ ([' '] : Str)) := rfl
    have e4a : ('0' :: ':' :: (ds ++ ((": Subtitle: ").data ++ rest)) : Str) =
        ('0' :: ':' :: (ds ++ ([':', ' '] : Str))) ++
          (('S' :: ("ubtitle:").data) ++ (' ' :: rest)) := by
      rw [lit]; simp [List.append_assoc]
    rw [show subtitleColonWord = 'S' :: ("ubtitle:").data from rfl, e4a]
    exact splitOnce_first_at _ _ hSa
  have e5 : rustTrim ('0' :: ':' :: (ds ++ ([':', ' '] : Str))) =
      ('0' :: ':' :: ds) ++ ([':'] : Str) := by
    have e5a : ('0' :: ':' :: (ds ++ ([':', ' '] : Str)) : Str) =
        ('0' :: ':' :: ds) ++ ([':', ' '] : Str) := by
      simp [List.append_assoc]
    rw [rustTrim, dropWhileWs_cons_of _ (by decide), e5a,
      trimEnd_append_of (show trimEnd ([':', ' '] : Str) ≠ [] by decide)]
    rfl
  have etm : trimEndMatches ('0' :: ':' :: ds) ':' = '0' :: ':' :: ds := by
    rw [show ('0' :: ':' :: ds : Str) = (['0', ':'] : Str) ++ ds from rfl,
      trimEndMatches_append_of (by rw [trimEndMatches_eq_self_of_notMem hdsC]; exact hne),
      trimEndMatches_eq_self_of_notMem hdsC]
  have e6 : trimEndMatches (('0' :: ':' :: ds) ++ ([':'] : Str)) ':' =
      '0' :: ':' :: ds := by
    rw [trimEndMatches_append_single, etm]
  have e7 : rustTrim ('0' :: ':' :: ds) = '0' :: ':' :: ds := by
    rw [rustTrim, dropWhileWs_cons_of _ (by decide),
      show ('0' :: ':' :: ds : Str) = (['0', ':'] : Str) ++ ds from rfl,
      trimEnd_append_of (by rw [trimEnd_eq_self_of_all hdsWs]; exact hne),
      trimEnd_eq_self_of_all hdsWs]
  have e8 : rustTrim (' ' :: rest) = rest := by
    rw [rustTrim, show dropWhileWs (' ' :: rest) = dropWhileWs rest from by
      rw [dropWhileWs, List.dropWhile_cons, if_pos (by decide)]; rfl, hr1, hr2]
  have hOds : '(' ∉ ('0' :: ':' :: ds : Str) := by
    intro hm
    simp only [List.mem_cons] at hm
    rcases hm with h | h | h
    · exact absurd h (by decide)
    · exact absurd h (by decide)
    · exact hdsO h
  have e9 : findCharIdx ('0' :: ':' :: ds) '(' = none := findCharIdx_eq_none hOds
  have e12c : rustTrim (trimEndMatches ('0' :: ':' :: ds) ':') = '0' :: ':' :: ds := by
    rw [etm, e7]
  have e13 : rfindCharIdx ('0' :: ':' :: ds) ':' = some 1 := by
    rw [show ('0' :: ':' :: ds : Str) = (['0', ':'] : Str) ++ ds from rfl,
      rfindCharIdx_append_right_none _ hdsC]
    rfl
  have e14 : List.drop (1 + 1) ('0' :: ':' :: ds) = ds := rfl
  have e15 : parseU32 ds = Except.ok (decimalVal ds) := parseU32_digits hne hd hv
  unfold parseHeader
  simp only [e1, e2, e3, e4, e5, e6, e7, e8, e9, e12c, e13, e14, e15]

lemma isSubtitleHeader_withLang (ds tag rest : Str) :
    isSubtitleHeader (withLangHeader ds tag rest) = true := by
  unfold isSubtitleHeader
  have h1 : List.isPrefixOf streamMarker (dropWhileWs (withLangHeader ds tag rest)) = true := by
    rw [show withLangHeader ds tag rest =
      'S' :: (("tream #0:").data ++ (ds ++ '(' :: (tag ++ (("): Subtitle: ").data ++ rest))))
      from rfl, dropWhileWs_cons_of _ (by decide),
      show ('S' :: (("tream #0:").data ++
        (ds ++ '(' :: (tag ++ (("): Subtitle: ").data ++ rest)))) : Str) =
        streamMarker ++ ('0' :: ':' ::
          (ds ++ '(' :: (tag ++ (("): Subtitle: ").data ++ rest)))) from rfl,
      List.isPrefixOf_iff_prefix]
    exact List.prefix_append _ _
  have h2 : containsSubstr (withLangHeader ds tag rest) subtitleWord = true := by
    rw [show withLangHeader ds tag rest =
      (("Stream #0:").data ++ (ds ++ '(' :: (tag ++ ([')', ':', ' '] : Str)))) ++
        (subtitleWord ++ (':' :: ' ' :: rest)) from by
      rw [withLangHeader, show ("): Subtitle: ").data =
        ([')', ':', ' '] : Str) ++ (subtitleWord ++ ([':', ' '] : Str)) from rfl]
      simp [List.append_assoc]]
    exact containsSubstr_middle _ _ _
  rw [h1, h2]
  rfl

lemma isSubtitleHeader_noLang (ds rest : Str) :
    isSubtitleHeader (noLangHeader ds rest) = true := by
  unfold isSubtitleHeader
  have h1 : List.isPrefixOf streamMarker (dropWhileWs (noLangHeader ds rest)) = true := by
    rw [show noLangHeader ds rest =
      'S' :: (("tream #0:").data ++ (ds ++ ((": Subtitle: ").data ++ rest))) from rfl,
      dropWhileWs_cons_of _ (by decide),
      show ('S' :: (("tream #0:").data ++ (ds ++ ((": Subtitle: ").data ++ rest))) : Str) =
        streamMarker ++ ('0' :: ':' :: (ds ++ ((": Subtitle: ").data ++ rest))) from rfl,
      List.isPrefixOf_iff_prefix]
    exact List.prefix_append _ _
  have h2 : containsSubstr (noLangHeader ds rest) subtitleWord = true := by
    rw [show noLangHeader ds rest =
      (("Stream #0:").data ++ (ds ++ ([':', ' '] : Str))) ++
        (subtitleWord ++ (':' :: ' ' :: rest)) from by
      rw [noLangHeader, show (": Subtitle: ").data =
        ([':', ' '] : Str) ++ (subtitleWord ++ ([':', ' '] : Str)) from rfl]
      simp [List.append_assoc]]
    exact containsSubstr_middle _ _ _
  rw [h1, h2]
  rfl

/-- C2: the two-line scenario parses to exactly the two claimed tracks
(renumbered 0 and 1), and in general a header line whose numeric prefix is
immediately followed by a parenthesized tag parses with `lang = some tag`,
while a header line without parentheses parses with `lang = none`. -/
theorem c2_lang_some_iff_parenthesized :
    (enumerate_subtitle_tracks
        (("Stream #0:2(eng): Subtitle: subrip (default)\nStream #0:3: Subtitle: hdmv_pgs_subtitle, 1920x1080").data) =
      .ok [{ stream_index := 0, lang := some (("eng").data),
             format := ("subrip").data, title := none },
           { stream_index := 1, lang := none,
             format := ("hdmv_pgs_subtitle").data, title := none }]) ∧
    (∀ ds tag rest : Str,
      ds ≠ [] → (∀ c ∈ ds, c.isDigit = true) → decimalVal ds < 2 ^ 32 →
      'S' ∉ tag → ')' ∉ tag →
      dropWhileWs rest = rest → trimEnd rest = rest → rest ≠ [] →
      isSubtitleHeader (withLangHeader ds tag rest) = true ∧
      parseHeader (withLangHeader ds tag rest) =
        .ok (decimalVal ds, some tag,
          rustTrim (rest.takeWhile (fun c => !formatDelim c)))) ∧
    (∀ ds rest : Str,
      ds ≠ [] → (∀ c ∈ ds, c.isDigit = true) → decimalVal ds < 2 ^ 32 →
      dropWhileWs rest = rest → trimEnd rest = rest → rest ≠ [] →
      isSubtitleHeader (noLangHeader ds rest) = true ∧
      parseHeader (noLangHeader ds rest) =
        .ok (decimalVal ds, none,
          rustTrim (rest.takeWhile (fun c => !formatDelim c)))) := by
  refine ⟨rfl, ?_, ?_⟩
  · intro ds tag rest h1 h2 h3 h4 h5 h6 h7 h8
    exact ⟨isSubtitleHeader_withLang ds tag rest,
      parseHeader_withLang ds tag rest h1 h2 h3 h4 h5 h6 h7 h8⟩
  · intro ds rest h1 h2 h3 h4 h5 h6
    exact ⟨isSubtitleHeader_noLang ds rest,
      parseHeader_noLang ds rest h1 h2 h3 h4 h5 h6⟩

/-- Witness for C2 instantiating the parenthesized-tag family at concrete
digit string, tag and trailing text. -/
theorem c2_lang_witness :
    ((("2").data : Str) ≠ [] ∧ (∀ c ∈ (("2").data : Str), c.isDigit = true) ∧
      decimalVal (("2").data) < 2 ^ 32 ∧
      'S' ∉ (("eng").data : Str) ∧ ')' ∉ (("eng").data : Str) ∧
      dropWhileWs (("subrip (default)").data) = ("subrip (default)").data ∧
      trimEnd (("subrip (default)").data) = ("subrip (default)").data ∧
      (("subrip (default)").data : Str) ≠ []) ∧
    (isSubtitleHeader (withLangHeader (("2").data) (("eng").data)
        (("subrip (default)").data)) = true ∧
     parseHeader (withLangHeader (("2").data) (("eng").data)
        (("subrip (default)").data)) =
       .ok (decimalVal (("2").data), some (("eng").data),
         rustTrim ((("subrip (default)").data).takeWhile (fun c => !formatDelim c)))) :=
  ⟨⟨by decide, by decide, by decide, by decide, by decide, by decide, by decide, by decide⟩,
    c2_lang_some_iff_parenthesized.2.1 (("2").data) (("eng").data)
      (("subrip (default)").data) (by decide) (by decide) (by decide) (by decide)
      (by decide) (by decide) (by decide) (by decide)⟩
